import Mathlib

/-
Formal model of the pixl command-line parser (src/cli/cli_parser.h).

CliArg objects are heap-allocated in the C++ source and shared by pointer
between the parser registry, subcommand registries and the parse result;
the only field mutated after construction is `param`.  We model the heap
as a list of CliArg records; an "id" (a Nat index into that list) plays
the role of a CliArg* pointer.  Subcommands are immutable, so the result
stores the index of the chosen subcommand in the parser's subcommand list.

All functions below are translated line by line from cli_parser.h.
-/

namespace PixlCli

/-- Model of struct CliArg: name, description, mutable param value,
hasParam and required flags (cli_parser.h lines 24-33). -/
structure CliArg where
  name : String
  description : String
  param : String
  hasParam : Bool
  required : Bool
deriving DecidableEq

/-- Model of class CliSubcommand: a name and the list of (pointers to) its
arguments (cli_parser.h lines 40-57). -/
structure CliSubcommand where
  name : String
  args : List Nat
deriving DecidableEq

/-- Model of struct CliParserResult (cli_parser.h lines 61-77): error
message, matched argument pointers in encounter order, and the chosen
subcommand (index into the parser's subcommand list), default-initialized
to empty / null. -/
structure CliParserResult where
  errorMessage : String := ""
  args : List Nat := []
  subcommand : Option Nat := none
deriving DecidableEq

/-- Model of class CliParser's data members (cli_parser.h lines 116-117):
the registered subcommands and the top-level argument list. -/
structure CliParser where
  subcommands : List CliSubcommand
  args : List Nat
deriving DecidableEq

/-- Test argv[i][0] == '-' of the C source: true iff the token's first
character is a dash (an empty token has first byte NUL in C, which is not
a dash, and here has no first character). -/
def dashToken (t : String) : Bool :=
  match t.data with
  | [] => false
  | c :: _ => c = '-'

/-- The pointer arithmetic argv[i] + 1 of the C source: the token with its
first character removed. -/
def strTail (t : String) : String := String.mk t.data.tail

/-- Placeholder CliArg used to totalize heap reads (a C++ dereference of a
dangling id would be undefined behavior; well-formed states never read it). -/
def defaultArg : CliArg := ⟨"", "", "", false, false⟩

/-- Placeholder subcommand used to totalize list reads. -/
def defaultSub : CliSubcommand := ⟨"", []⟩

/-- Dereference an argument pointer in the heap. -/
def heapGet (heap : List CliArg) (id : Nat) : CliArg := heap.getD id defaultArg

/-- CliParser::getArgument / CliParserResult::getArgument (cli_parser.h
lines 66-72 and 129-135): linear scan for the first argument in `ids`
whose name equals `name`, returning its pointer (id), else null (none). -/
def getArgument (heap : List CliArg) (ids : List Nat) (name : String) : Option Nat :=
  match ids with
  | [] => none
  | id :: rest =>
    if (heapGet heap id).name = name then some id else getArgument heap rest name

/-- CliParser::getSubcommand (cli_parser.h lines 120-126): first subcommand
with the given name, returned as its index in the subcommand list. -/
def getSubcommand (subs : List CliSubcommand) (name : String) : Option Nat :=
  match subs with
  | [] => none
  | c :: rest =>
    if c.name = name then some 0 else
      match getSubcommand rest name with
      | some n => some (n + 1)
      | none => none

/-- CliParser::processFlag (cli_parser.h lines 195-209): a flag without a
value.  Looks the name up in the active scope; unknown names and
value-bearing specs fail, otherwise the spec is appended to the result. -/
def processFlag (heap : List CliArg) (scope : List Nat) (name : String)
    (result : CliParserResult) : CliParserResult × Bool :=
  match getArgument heap scope name with
  | some id =>
    if (heapGet heap id).hasParam then
      ({result with errorMessage := "Argument " ++ name ++ " must have a parameter"}, false)
    else
      ({result with args := result.args ++ [id]}, true)
  | none => ({result with errorMessage := "Unkown argument " ++ name}, false)

/-- CliParser::processArgument (cli_parser.h lines 213-228): a flag with a
value.  Unknown names and no-value specs fail; otherwise the value is
written into the spec's param field and the spec appended to the result. -/
def processArgument (heap : List CliArg) (scope : List Nat) (name value : String)
    (result : CliParserResult) : List CliArg × CliParserResult × Bool :=
  match getArgument heap scope name with
  | some id =>
    if !(heapGet heap id).hasParam then
      (heap, {result with errorMessage := "Argument " ++ name ++ " can not have a parameter"},
       false)
    else
      (heap.set id {heapGet heap id with param := value},
       {result with args := result.args ++ [id]}, true)
  | none => (heap, {result with errorMessage := "Unkown argument " ++ name}, false)

/-- The token-scanning while loop of CliParser::processArguments
(cli_parser.h lines 154-177).  A token pair (-flag, value) is consumed when
the first starts with '-' and the second does not; a lone '-'-token is a
bare flag; anything else is "Weird input".  Returns the heap, the result
and the success flag. -/
def scanTokens (heap : List CliArg) (scope : List Nat) (result : CliParserResult) :
    List String → List CliArg × CliParserResult × Bool
  | [] => (heap, result, true)
  | [t] =>
    if dashToken t then
      match processFlag heap scope (strTail t) result with
      | (result2, true) => (heap, result2, true)
      | (result2, false) => (heap, result2, false)
    else (heap, {result with errorMessage := "Weird input"}, false)
  | t :: v :: rest =>
    if dashToken t && !(dashToken v) then
      match processArgument heap scope (strTail t) v result with
      | (heap2, result2, true) => scanTokens heap2 scope result2 rest
      | (heap2, result2, false) => (heap2, result2, false)
    else if dashToken t then
      match processFlag heap scope (strTail t) result with
      | (result2, true) => scanTokens heap scope result2 (v :: rest)
      | (result2, false) => (heap, result2, false)
    else (heap, {result with errorMessage := "Weird input"}, false)

/-- The required-argument check of CliParser::processArguments
(cli_parser.h lines 179-188): the first spec in the active scope that is
required but absent from the result fails the parse. -/
def checkRequired (heap : List CliArg) (scope : List Nat) (result : CliParserResult) :
    CliParserResult × Bool :=
  match scope with
  | [] => (result, true)
  | id :: rest =>
    if (heapGet heap id).required &&
        (getArgument heap result.args (heapGet heap id).name).isNone then
      ({result with
          errorMessage := "Missing required argument: " ++ (heapGet heap id).name}, false)
    else checkRequired heap rest result

/-- CliParser::processArguments (cli_parser.h lines 152-191): scan the
tokens, then check required arguments (the check only runs when the scan
succeeded, as the C++ returns early on scan failure). -/
def processArguments (heap : List CliArg) (scope : List Nat) (result : CliParserResult)
    (tokens : List String) : List CliArg × CliParserResult × Bool :=
  match scanTokens heap scope result tokens with
  | (heap2, result2, true) =>
    match checkRequired heap2 scope result2 with
    | (result3, ok) => (heap2, result3, ok)
  | (heap2, result2, false) => (heap2, result2, false)

/-- CliParser::parse (cli_parser.h lines 98-113) plus processSubcommand
(lines 138-148).  `tokens` is argv[1..] (argv[0] is never inspected, and
argc < 2 means `tokens` is empty).  If the first token names a registered
subcommand, the parser's argument list is cleared and replaced by the
subcommand's arguments (a persistent mutation of the parser, returned as
the first component) and the remaining tokens are scanned in that scope;
otherwise all tokens are scanned in the top-level scope. -/
def parse (p : CliParser) (heap : List CliArg) (tokens : List String)
    (result : CliParserResult) : CliParser × List CliArg × CliParserResult × Bool :=
  match tokens with
  | [] => (p, heap, {result with errorMessage := "No args"}, false)
  | t0 :: rest =>
    match getSubcommand p.subcommands t0 with
    | some ci =>
      match processArguments heap (p.subcommands.getD ci defaultSub).args
          {result with subcommand := some ci} rest with
      | (heap2, result2, ok) =>
        ({p with args := (p.subcommands.getD ci defaultSub).args}, heap2, result2, ok)
    | none =>
      match processArguments heap p.args result (t0 :: rest) with
      | (heap2, result2, ok) => (p, heap2, result2, ok)

/-- Two CliArg records that agree on every field except possibly the mutable
param value: the relation a parse preserves on every heap entry (parsing only
ever writes param fields). -/
def specEq (a b : CliArg) : Prop :=
  a.name = b.name ∧ a.description = b.description ∧ a.hasParam = b.hasParam ∧
    a.required = b.required

/-- Two heaps of the same size whose entries agree except possibly on param
values. -/
def heapEquiv (hA hB : List CliArg) : Prop :=
  hA.length = hB.length ∧ ∀ id, specEq (heapGet hA id) (heapGet hB id)

/-- Relation between the final heaps of two runs of the same scan started
from heaps hA and hB: every entry either ends equal in both (it was written,
with the same last value) or is left untouched in both. -/
def replayRel (hA hB hA2 hB2 : List CliArg) : Prop :=
  ∀ id, heapGet hA2 id = heapGet hB2 id ∨
    (heapGet hA2 id = heapGet hA id ∧ heapGet hB2 id = heapGet hB id)

/-! ## Helper lemmas -/

/-- processFlag never touches the result's subcommand field. -/
theorem processFlag_subcommand (heap : List CliArg) (scope : List Nat) (name : String)
    (r : CliParserResult) : ((processFlag heap scope name r).1).subcommand = r.subcommand := by
  unfold processFlag
  cases getArgument heap scope name with
  | none => rfl
  | some id => cases hb : (heapGet heap id).hasParam <;> simp [hb]

/-- processArgument never touches the result's subcommand field. -/
theorem processArgument_subcommand (heap : List CliArg) (scope : List Nat)
    (name value : String) (r : CliParserResult) :
    ((processArgument heap scope name value r).2.1).subcommand = r.subcommand := by
  unfold processArgument
  cases getArgument heap scope name with
  | none => rfl
  | some id => cases hb : (heapGet heap id).hasParam <;> simp [hb]

/-- The token scan never touches the result's subcommand field. -/
theorem scanTokens_subcommand (heap : List CliArg) (scope : List Nat)
    (r : CliParserResult) (ts : List String) :
    ((scanTokens heap scope r ts).2.1).subcommand = r.subcommand := by
  induction heap, scope, r, ts using scanTokens.induct with
  | case1 heap scope r => rfl
  | case2 heap scope r t ht r2 hpf =>
    have h2 := processFlag_subcommand heap scope (strTail t) r
    rw [hpf] at h2
    simp only [Prod.fst] at h2
    simp [scanTokens, ht, hpf, h2]
  | case3 heap scope r t ht r2 hpf =>
    have h2 := processFlag_subcommand heap scope (strTail t) r
    rw [hpf] at h2
    simp only [Prod.fst] at h2
    simp [scanTokens, ht, hpf, h2]
  | case4 heap scope r t ht => simp [scanTokens, ht]
  | case5 heap scope r t v rest hc heap2 r2 hpa ih =>
    have h2 := processArgument_subcommand heap scope (strTail t) v r
    rw [hpa] at h2
    simp only [Prod.snd, Prod.fst] at h2
    simp [scanTokens, hc, hpa, ih, h2]
  | case6 heap scope r t v rest hc heap2 r2 hpa =>
    have h2 := processArgument_subcommand heap scope (strTail t) v r
    rw [hpa] at h2
    simp only [Prod.snd, Prod.fst] at h2
    simp [scanTokens, hc, hpa, h2]
  | case7 heap scope r t v rest hc ht r2 hpf ih =>
    have hv : dashToken v = true := by
      cases hdv : dashToken v
      · exact absurd (by simp [ht, hdv]) hc
      · rfl
    have h2 := processFlag_subcommand heap scope (strTail t) r
    rw [hpf] at h2
    simp only [Prod.fst] at h2
    simp [scanTokens, ht, hv, hpf, ih, h2]
  | case8 heap scope r t v rest hc ht r2 hpf =>
    have hv : dashToken v = true := by
      cases hdv : dashToken v
      · exact absurd (by simp [ht, hdv]) hc
      · rfl
    have h2 := processFlag_subcommand heap scope (strTail t) r
    rw [hpf] at h2
    simp only [Prod.fst] at h2
    simp [scanTokens, ht, hv, hpf, h2]
  | case9 heap scope r t v rest hc ht => simp [scanTokens, hc, ht]

/-- The required-argument check never touches the result's subcommand field. -/
theorem checkRequired_subcommand (heap : List CliArg) (scope : List Nat)
    (r : CliParserResult) : ((checkRequired heap scope r).1).subcommand = r.subcommand := by
  induction scope with
  | nil => rfl
  | cons id rest ih =>
    unfold checkRequired
    by_cases hb : ((heapGet heap id).required &&
        (getArgument heap r.args (heapGet heap id).name).isNone) = true
    · simp [hb]
    · simp [hb, ih]

/-- processArguments never touches the result's subcommand field. -/
theorem processArguments_subcommand (heap : List CliArg) (scope : List Nat)
    (r : CliParserResult) (ts : List String) :
    ((processArguments heap scope r ts).2.1).subcommand = r.subcommand := by
  have hs := scanTokens_subcommand heap scope r ts
  unfold processArguments
  rcases e : scanTokens heap scope r ts with ⟨heap2, r2, ok⟩
  rw [e] at hs
  simp only [Prod.snd, Prod.fst] at hs
  cases ok with
  | true =>
    have hc := checkRequired_subcommand heap2 scope r2
    simp [hc, hs]
  | false => simpa using hs

/-- The subcommand returned by getSubcommand really has the requested name. -/
theorem getSubcommand_name : ∀ (subs : List CliSubcommand) (name : String) (ci : Nat),
    getSubcommand subs name = some ci → (subs.getD ci defaultSub).name = name := by
  intro subs
  induction subs with
  | nil => intro name ci h; exact absurd h (by simp [getSubcommand])
  | cons c rest ih =>
    intro name ci h
    unfold getSubcommand at h
    by_cases hc : c.name = name
    · rw [if_pos hc] at h
      injection h with h
      subst h
      simpa using hc
    · rw [if_neg hc] at h
      cases e : getSubcommand rest name with
      | none => rw [e] at h; exact absurd h (by simp)
      | some n =>
        rw [e] at h
        injection h with h
        subst h
        simpa using ih name n e

/-! ## Claims -/

/-- Claim C1: for every non-empty token sequence whose first token equals the
name of a registered subcommand, parse records that subcommand (the first
registered one with that name) in the result, and the rest of the parse is
exactly a scan of the remaining tokens in the scope of that subcommand's own
argument list: the parser's top-level argument list appears nowhere, so
top-level arguments are not resolvable for that invocation. -/
theorem claim1_subcommand_scoping (p : CliParser) (heap : List CliArg)
    (r : CliParserResult) (t0 : String) (rest : List String) (ci : Nat)
    (h : getSubcommand p.subcommands t0 = some ci) :
    (p.subcommands.getD ci defaultSub).name = t0 ∧
    ((parse p heap (t0 :: rest) r).2.2.1).subcommand = some ci ∧
    (parse p heap (t0 :: rest) r).2 =
      processArguments heap (p.subcommands.getD ci defaultSub).args
        {r with subcommand := some ci} rest := by
  refine ⟨getSubcommand_name p.subcommands t0 ci h, ?_, ?_⟩
  · have hs := processArguments_subcommand heap (p.subcommands.getD ci defaultSub).args
      {r with subcommand := some ci} rest
    simp only [parse]
    rw [h]
    simpa using hs
  · simp only [parse]
    rw [h]

/-- Witness for claim C1 at a concrete registry: one subcommand "sub" owning
argument 1, one top-level argument 0. -/
theorem claim1_witness :
    getSubcommand [CliSubcommand.mk "sub" [1]] "sub" = some 0 ∧
    (([CliSubcommand.mk "sub" [1]].getD 0 defaultSub).name = "sub" ∧
      ((parse ⟨[⟨"sub", [1]⟩], [0]⟩
          [⟨"top", "", "", false, false⟩, ⟨"s", "", "", false, false⟩]
          ["sub", "-s"] {}).2.2.1).subcommand = some 0 ∧
      (parse ⟨[⟨"sub", [1]⟩], [0]⟩
          [⟨"top", "", "", false, false⟩, ⟨"s", "", "", false, false⟩]
          ["sub", "-s"] {}).2 =
        processArguments [⟨"top", "", "", false, false⟩, ⟨"s", "", "", false, false⟩]
          ([CliSubcommand.mk "sub" [1]].getD 0 defaultSub).args
          {(({} : CliParserResult)) with subcommand := some 0} ["-s"]) :=
  ⟨rfl, claim1_subcommand_scoping ⟨[⟨"sub", [1]⟩], [0]⟩
    [⟨"top", "", "", false, false⟩, ⟨"s", "", "", false, false⟩] {} "sub" ["-s"] 0 rfl⟩

/-- Claim C2: with a registered spec named "out" that takes a value and is
required, parsing ["-out", "file.png"] succeeds with no error message, the
spec (id 0) is appended to the result's matched arguments, and looking "out"
up on the result yields the spec whose recorded param value is "file.png". -/
theorem claim2_out_value_recorded (d : String) :
    parse ⟨[], [0]⟩ [⟨"out", d, "", true, true⟩] ["-out", "file.png"] {} =
      (⟨[], [0]⟩, [⟨"out", d, "file.png", true, true⟩], ⟨"", [0], none⟩, true) ∧
    getArgument [⟨"out", d, "file.png", true, true⟩] [0] "out" = some 0 ∧
    (heapGet [⟨"out", d, "file.png", true, true⟩] 0).param = "file.png" :=
  ⟨rfl, rfl, rfl⟩

/-- A scan failure short-circuits processArguments: the required-argument
check is skipped and the scan's state is returned as is. -/
theorem processArguments_scan_fail (heap : List CliArg) (scope : List Nat)
    (r : CliParserResult) (ts : List String) (heap2 : List CliArg) (r2 : CliParserResult)
    (h : scanTokens heap scope r ts = (heap2, r2, false)) :
    processArguments heap scope r ts = (heap2, r2, false) := by
  unfold processArguments
  rw [h]

/-- When the first token is not a registered subcommand name, parse scans all
tokens in the top-level scope and leaves the parser untouched. -/
theorem parse_flat (p : CliParser) (heap : List CliArg) (r : CliParserResult)
    (t0 : String) (rest : List String) (h : getSubcommand p.subcommands t0 = none) :
    parse p heap (t0 :: rest) r = (p, processArguments heap p.args r (t0 :: rest)) := by
  simp only [parse]
  rw [h]

/-- Claim C3, corrected: when a '-'-token is followed by a non-'-'-token and
the flag name is found in the active scope but its spec takes no value, the
scan fails -- with the message "Argument (name) can not have a parameter" (the
claim's "must have a parameter" is the message of the opposite mismatch).
Stated for the scan loop in an arbitrary scope (any intermediate scan state)
and for a whole flat-style parse whose first token is the offending one. -/
theorem claim3_no_value_flag_given_value (p : CliParser) (heap : List CliArg)
    (r : CliParserResult) (t v : String) (rest : List String) (id : Nat)
    (ht : dashToken t = true) (hv : dashToken v = false)
    (hflat : getSubcommand p.subcommands t = none)
    (hfound : getArgument heap p.args (strTail t) = some id)
    (hnop : (heapGet heap id).hasParam = false) :
    scanTokens heap p.args r (t :: v :: rest) =
      (heap,
       {r with errorMessage := "Argument " ++ strTail t ++ " can not have a parameter"},
       false) ∧
    parse p heap (t :: v :: rest) r =
      (p, heap,
       {r with errorMessage := "Argument " ++ strTail t ++ " can not have a parameter"},
       false) := by
  have hscan : scanTokens heap p.args r (t :: v :: rest) =
      (heap,
       {r with errorMessage := "Argument " ++ strTail t ++ " can not have a parameter"},
       false) := by
    simp [scanTokens, ht, hv, processArgument, hfound, hnop]
  exact ⟨hscan, by
    rw [parse_flat p heap r t (v :: rest) hflat,
      processArguments_scan_fail _ _ _ _ _ _ hscan]⟩

/-- Witness for claim C3 at a concrete registry: spec "v" takes no value,
tokens ["-v", "x"]. -/
theorem claim3_witness :
    scanTokens [⟨"v", "", "", false, false⟩] [0] {} ["-v", "x"] =
      ([⟨"v", "", "", false, false⟩],
       ({errorMessage := "Argument v can not have a parameter"} : CliParserResult),
       false) ∧
    parse ⟨[], [0]⟩ [⟨"v", "", "", false, false⟩] ["-v", "x"] {} =
      (⟨[], [0]⟩, [⟨"v", "", "", false, false⟩],
       ({errorMessage := "Argument v can not have a parameter"} : CliParserResult),
       false) :=
  claim3_no_value_flag_given_value ⟨[], [0]⟩ [⟨"v", "", "", false, false⟩] {} "-v" "x" [] 0
    (by decide) (by decide) rfl (by decide) (by decide)

/-- Counterexample to claim C3 as stated: with spec "v" registered as taking
no value, parsing ["-v", "x"] fails, but the error message is not
"Argument v must have a parameter" (it is "Argument v can not have a
parameter"). -/
theorem claim3_counterexample :
    (parse ⟨[], [0]⟩ [⟨"v", "", "", false, false⟩] ["-v", "x"] {}).2.2.2 = false ∧
    (parse ⟨[], [0]⟩ [⟨"v", "", "", false, false⟩] ["-v", "x"] {}).2.2.1.errorMessage =
      "Argument v can not have a parameter" ∧
    ¬((parse ⟨[], [0]⟩ [⟨"v", "", "", false, false⟩] ["-v", "x"] {}).2.2.1.errorMessage =
      "Argument v must have a parameter") := by
  refine ⟨rfl, rfl, ?_⟩
  decide

/-- Claim C6, corrected: a '-'-token whose name is not found in the active
scope fails the scan whether it appears as a bare flag or with a following
value token -- but the message is the source's misspelled "Unkown argument
(name)", not "Unknown argument (name)".  Stated for the scan loop in an
arbitrary scope and for a whole flat-style parse. -/
theorem claim6_unknown_argument (p : CliParser) (heap : List CliArg)
    (r : CliParserResult) (t : String) (rest : List String)
    (ht : dashToken t = true)
    (hflat : getSubcommand p.subcommands t = none)
    (hmiss : getArgument heap p.args (strTail t) = none) :
    scanTokens heap p.args r (t :: rest) =
      (heap, {r with errorMessage := "Unkown argument " ++ strTail t}, false) ∧
    parse p heap (t :: rest) r =
      (p, heap, {r with errorMessage := "Unkown argument " ++ strTail t}, false) := by
  have hscan : scanTokens heap p.args r (t :: rest) =
      (heap, {r with errorMessage := "Unkown argument " ++ strTail t}, false) := by
    cases rest with
    | nil => simp [scanTokens, ht, processFlag, hmiss]
    | cons v rest2 =>
      cases hv : dashToken v with
      | false => simp [scanTokens, ht, hv, processArgument, hmiss]
      | true => simp [scanTokens, ht, hv, processFlag, hmiss]
  exact ⟨hscan, by
    rw [parse_flat p heap r t rest hflat, processArguments_scan_fail _ _ _ _ _ _ hscan]⟩

/-- Witness for claim C6: empty registry, token "-unknown" (bare flag case). -/
theorem claim6_witness :
    scanTokens [] [] {} ["-unknown"] =
      ([], ({errorMessage := "Unkown argument unknown"} : CliParserResult), false) ∧
    parse ⟨[], []⟩ [] ["-unknown"] {} =
      (⟨[], []⟩, [], ({errorMessage := "Unkown argument unknown"} : CliParserResult), false) :=
  claim6_unknown_argument ⟨[], []⟩ [] {} "-unknown" [] (by decide) rfl rfl

/-- Counterexample to claim C6 as stated: parsing ["-unknown"] against an
empty registry fails, but the message is the misspelled "Unkown argument
unknown", not "Unknown argument unknown". -/
theorem claim6_counterexample :
    (parse ⟨[], []⟩ [] ["-unknown"] {}).2.2.2 = false ∧
    (parse ⟨[], []⟩ [] ["-unknown"] {}).2.2.1.errorMessage = "Unkown argument unknown" ∧
    ¬((parse ⟨[], []⟩ [] ["-unknown"] {}).2.2.1.errorMessage = "Unknown argument unknown") := by
  refine ⟨rfl, rfl, ?_⟩
  decide

/-- Claim C7: a '-'-token with no valid following value token (last token, or
followed by another '-'-token) whose spec requires a value fails the scan with
"Argument (name) must have a parameter"; the output heap and matched-argument
list are unchanged, so the following '-'-token is never consumed as a literal
value.  Stated for the scan loop in an arbitrary scope and for a whole
flat-style parse. -/
theorem claim7_value_flag_without_value (p : CliParser) (heap : List CliArg)
    (r : CliParserResult) (t : String) (rest : List String) (id : Nat)
    (ht : dashToken t = true)
    (hnext : ∀ v, rest.head? = some v → dashToken v = true)
    (hflat : getSubcommand p.subcommands t = none)
    (hfound : getArgument heap p.args (strTail t) = some id)
    (hhas : (heapGet heap id).hasParam = true) :
    scanTokens heap p.args r (t :: rest) =
      (heap, {r with errorMessage := "Argument " ++ strTail t ++ " must have a parameter"},
       false) ∧
    parse p heap (t :: rest) r =
      (p, heap, {r with errorMessage := "Argument " ++ strTail t ++ " must have a parameter"},
       false) := by
  have hscan : scanTokens heap p.args r (t :: rest) =
      (heap, {r with errorMessage := "Argument " ++ strTail t ++ " must have a parameter"},
       false) := by
    cases rest with
    | nil => simp [scanTokens, ht, processFlag, hfound, hhas]
    | cons v rest2 =>
      have hv : dashToken v = true := hnext v rfl
      simp [scanTokens, ht, hv, processFlag, hfound, hhas]
  exact ⟨hscan, by
    rw [parse_flat p heap r t rest hflat, processArguments_scan_fail _ _ _ _ _ _ hscan]⟩

/-- Witness for claim C7: spec "out" requires a value; tokens
["-out", "-verbose"], so the next token also starts with '-'. -/
theorem claim7_witness :
    scanTokens [⟨"out", "", "", true, false⟩] [0] {} ["-out", "-verbose"] =
      ([⟨"out", "", "", true, false⟩],
       ({errorMessage := "Argument out must have a parameter"} : CliParserResult), false) ∧
    parse ⟨[], [0]⟩ [⟨"out", "", "", true, false⟩] ["-out", "-verbose"] {} =
      (⟨[], [0]⟩, [⟨"out", "", "", true, false⟩],
       ({errorMessage := "Argument out must have a parameter"} : CliParserResult), false) :=
  claim7_value_flag_without_value ⟨[], [0]⟩ [⟨"out", "", "", true, false⟩] {} "-out"
    ["-verbose"] 0 (by decide) (by decide) rfl (by decide) (by decide)

/-- Claim C9: a scanned token that does not start with '-' always fails the
scan with "Weird input"; there is no positional-argument handling.  Stated
for the scan loop in an arbitrary scope (any scan position) and for a whole
flat-style parse whose first token is the offending one (the hypothesis that
the token is not a registered subcommand name covers position 0). -/
theorem claim9_weird_input (p : CliParser) (heap : List CliArg)
    (r : CliParserResult) (t : String) (rest : List String)
    (ht : dashToken t = false)
    (hflat : getSubcommand p.subcommands t = none) :
    scanTokens heap p.args r (t :: rest) =
      (heap, {r with errorMessage := "Weird input"}, false) ∧
    parse p heap (t :: rest) r =
      (p, heap, {r with errorMessage := "Weird input"}, false) := by
  have hscan : scanTokens heap p.args r (t :: rest) =
      (heap, {r with errorMessage := "Weird input"}, false) := by
    cases rest with
    | nil => simp [scanTokens, ht]
    | cons v rest2 => simp [scanTokens, ht]
  exact ⟨hscan, by
    rw [parse_flat p heap r t rest hflat, processArguments_scan_fail _ _ _ _ _ _ hscan]⟩

/-- Witness for claim C9: parsing ["positional"] against an empty registry. -/
theorem claim9_witness :
    scanTokens [] [] {} ["positional"] =
      ([], ({errorMessage := "Weird input"} : CliParserResult), false) ∧
    parse ⟨[], []⟩ [] ["positional"] {} =
      (⟨[], []⟩, [], ({errorMessage := "Weird input"} : CliParserResult), false) :=
  claim9_weird_input ⟨[], []⟩ [] {} "positional" [] (by decide) rfl

/-- Counterexample to claim C4 as stated: with top-level argument 0 and
subcommand "sub" owning argument 1, a subcommand-style parse leaves the
parser's argument list equal to the subcommand's (namely [1]), not to the
top-level list [0] it held before the call. -/
theorem claim4_counterexample :
    (parse ⟨[⟨"sub", [1]⟩], [0]⟩
        [⟨"top", "", "", false, false⟩, ⟨"s", "", "", false, false⟩] ["sub"] {}).1.args =
      [1] ∧
    ¬((parse ⟨[⟨"sub", [1]⟩], [0]⟩
        [⟨"top", "", "", false, false⟩, ⟨"s", "", "", false, false⟩] ["sub"] {}).1.args =
      (⟨[⟨"sub", [1]⟩], [0]⟩ : CliParser).args) := by
  refine ⟨rfl, ?_⟩
  decide

/-- Claim C4, corrected: the replacement of the parser's top-level argument
set by the active subcommand's argument set is NOT transient -- args.clear()
followed by the insertion of the subcommand's arguments persists after parse
returns.  After any parse call the parser's argument list is the chosen
subcommand's list when the first token named a registered subcommand, and is
unchanged otherwise (the subcommand registry is never mutated by parse). -/
theorem claim4_scope_swap_persists (p : CliParser) (heap : List CliArg)
    (tokens : List String) (r : CliParserResult) :
    (parse p heap tokens r).1 =
      (match tokens with
       | [] => p
       | t0 :: _ =>
         match getSubcommand p.subcommands t0 with
         | some ci => {p with args := (p.subcommands.getD ci defaultSub).args}
         | none => p) := by
  cases tokens with
  | nil => rfl
  | cons t0 rest =>
    cases h : getSubcommand p.subcommands t0 with
    | some ci =>
      simp only [parse]
      rw [h]
    | none =>
      simp only [parse]
      rw [h]

/-- The first required-but-unmatched argument in the active scope produces
the "Missing required argument" failure; earlier scope entries are skipped
because they are either not required or already matched. -/
theorem checkRequired_first_missing (heap : List CliArg) (r : CliParserResult) :
    ∀ (pre : List Nat) (id : Nat) (post : List Nat),
      (∀ j ∈ pre, (heapGet heap j).required = true →
        (getArgument heap r.args (heapGet heap j).name).isSome = true) →
      (heapGet heap id).required = true →
      getArgument heap r.args (heapGet heap id).name = none →
      checkRequired heap (pre ++ id :: post) r =
        ({r with errorMessage := "Missing required argument: " ++ (heapGet heap id).name},
         false) := by
  intro pre
  induction pre with
  | nil =>
    intro id post hpre hreq hmiss
    unfold checkRequired
    simp [hreq, hmiss]
  | cons j pre2 ih =>
    intro id post hpre hreq hmiss
    have hcond : ((heapGet heap j).required &&
        (getArgument heap r.args (heapGet heap j).name).isNone) = false := by
      cases hjr : (heapGet heap j).required with
      | false => simp
      | true =>
        have hs := hpre j (by simp) hjr
        cases ho : getArgument heap r.args (heapGet heap j).name with
        | none => rw [ho] at hs; simp at hs
        | some k => simp [ho]
    show checkRequired heap (j :: (pre2 ++ id :: post)) r = _
    unfold checkRequired
    simp only [hcond, Bool.false_eq_true, if_false]
    exact ih id post (fun j2 hj2 => hpre j2 (List.mem_cons_of_mem _ hj2)) hreq hmiss

/-- When the scan succeeds but a required argument of the scope is missing,
processArguments fails with the message for the first such argument. -/
theorem processArguments_required_fail (heap : List CliArg) (scope : List Nat)
    (r0 : CliParserResult) (ts : List String) (heap2 : List CliArg) (r2 : CliParserResult)
    (pre post : List Nat) (id : Nat)
    (hscan : scanTokens heap scope r0 ts = (heap2, r2, true))
    (hsplit : scope = pre ++ id :: post)
    (hpre : ∀ j ∈ pre, (heapGet heap2 j).required = true →
      (getArgument heap2 r2.args (heapGet heap2 j).name).isSome = true)
    (hreq : (heapGet heap2 id).required = true)
    (hmiss : getArgument heap2 r2.args (heapGet heap2 id).name = none) :
    processArguments heap scope r0 ts =
      (heap2,
       {r2 with errorMessage := "Missing required argument: " ++ (heapGet heap2 id).name},
       false) := by
  unfold processArguments
  simp only [hscan]
  rw [hsplit, checkRequired_first_missing heap2 r2 pre id post hpre hreq hmiss]

/-- Claim C8: when the token scan completes without error, the required check
runs over exactly the active scope (the subcommand's argument list if one was
chosen, the top-level list otherwise -- so top-level required flags are never
checked under a subcommand), and the first spec of that scope that is marked
required but absent from the matched arguments fails the parse with
"Missing required argument: (name)". -/
theorem claim8_missing_required (p : CliParser) (heap : List CliArg) (r : CliParserResult)
    (t0 : String) (ts sts : List String) (scope pre post : List Nat) (id : Nat)
    (r0 : CliParserResult) (heap2 : List CliArg) (r2 : CliParserResult)
    (hscope : scope = (match getSubcommand p.subcommands t0 with
      | some ci => (p.subcommands.getD ci defaultSub).args
      | none => p.args))
    (hr0 : r0 = (match getSubcommand p.subcommands t0 with
      | some _ => {r with subcommand := getSubcommand p.subcommands t0}
      | none => r))
    (hsts : sts = (match getSubcommand p.subcommands t0 with
      | some _ => ts
      | none => t0 :: ts))
    (hscan : scanTokens heap scope r0 sts = (heap2, r2, true))
    (hsplit : scope = pre ++ id :: post)
    (hpre : ∀ j ∈ pre, (heapGet heap2 j).required = true →
      (getArgument heap2 r2.args (heapGet heap2 j).name).isSome = true)
    (hreq : (heapGet heap2 id).required = true)
    (hmiss : getArgument heap2 r2.args (heapGet heap2 id).name = none) :
    (parse p heap (t0 :: ts) r).2 =
      (heap2,
       {r2 with errorMessage := "Missing required argument: " ++ (heapGet heap2 id).name},
       false) := by
  cases hg : getSubcommand p.subcommands t0 with
  | some ci =>
    rw [hg] at hscope hr0 hsts
    subst hscope
    subst hr0
    subst hsts
    simp only [parse, hg]
    rw [processArguments_required_fail _ _ _ _ _ _ _ _ _ hscan hsplit hpre hreq hmiss]
  | none =>
    rw [hg] at hscope hr0 hsts
    subst hscope
    subst hr0
    subst hsts
    rw [parse_flat _ _ _ _ _ hg]
    rw [processArguments_required_fail _ _ _ _ _ _ _ _ _ hscan hsplit hpre hreq hmiss]

/-- Witness for claim C8: registry with required "out" (id 0) and optional
"v" (id 1); parsing ["-v"] matches only "v" and then fails on the missing
required "out". -/
theorem claim8_witness :
    (parse ⟨[], [0, 1]⟩ [⟨"out", "", "", true, true⟩, ⟨"v", "", "", false, false⟩]
        ["-v"] {}).2 =
      ([⟨"out", "", "", true, true⟩, ⟨"v", "", "", false, false⟩],
       ({errorMessage := "Missing required argument: out", args := [1]} : CliParserResult),
       false) :=
  claim8_missing_required ⟨[], [0, 1]⟩
    [⟨"out", "", "", true, true⟩, ⟨"v", "", "", false, false⟩] {} "-v" [] ["-v"]
    [0, 1] [] [1] 0 {} [⟨"out", "", "", true, true⟩, ⟨"v", "", "", false, false⟩]
    ({args := [1]} : CliParserResult) rfl rfl rfl (by decide) rfl (by simp) (by decide)
    (by decide)

/-- Claim C10: a failed parse is not atomic.  A flag/value pair consumed
before the failing token stays appended to the result's matched arguments and
its value stays written in the shared spec's param field: here the scan
consumes (t, v) onto spec id, then fails with "Weird input" on w, and the
returned state keeps both the heap write and the result append (the initial
result r is arbitrary, so any earlier matches in r.args are kept as well). -/
theorem claim10_no_rollback (p : CliParser) (heap : List CliArg) (r : CliParserResult)
    (t v w : String) (rest : List String) (id : Nat)
    (ht : dashToken t = true) (hv : dashToken v = false)
    (hflat : getSubcommand p.subcommands t = none)
    (hfound : getArgument heap p.args (strTail t) = some id)
    (hhas : (heapGet heap id).hasParam = true)
    (hw : dashToken w = false) :
    parse p heap (t :: v :: w :: rest) r =
      (p, heap.set id {heapGet heap id with param := v},
       {r with args := r.args ++ [id], errorMessage := "Weird input"}, false) := by
  have hscan : scanTokens heap p.args r (t :: v :: w :: rest) =
      (heap.set id {heapGet heap id with param := v},
       {r with args := r.args ++ [id], errorMessage := "Weird input"}, false) := by
    cases rest with
    | nil => simp [scanTokens, ht, hv, hw, processArgument, hfound, hhas]
    | cons w2 rest2 => simp [scanTokens, ht, hv, hw, processArgument, hfound, hhas]
  rw [parse_flat p heap r t (v :: w :: rest) hflat,
    processArguments_scan_fail _ _ _ _ _ _ hscan]

/-- Witness for claim C10: spec "a" takes a value; parsing
["-a", "val", "bogus"] fails on "bogus" but keeps the match of "a" and its
recorded value "val". -/
theorem claim10_witness :
    parse ⟨[], [0]⟩ [⟨"a", "", "", true, false⟩] ["-a", "val", "bogus"] {} =
      (⟨[], [0]⟩, [⟨"a", "", "val", true, false⟩],
       ({errorMessage := "Weird input", args := [0]} : CliParserResult), false) :=
  claim10_no_rollback ⟨[], [0]⟩ [⟨"a", "", "", true, false⟩] {} "-a" "val" "bogus" [] 0
    (by decide) (by decide) rfl (by decide) (by decide) (by decide)

/-! ## Heap lemmas for the idempotence proof -/

/-- Reading a cons cell at a successor index reads the tail. -/
theorem heapGet_cons_succ (x : CliArg) (l : List CliArg) (n : Nat) :
    heapGet (x :: l) (n + 1) = heapGet l n := rfl

/-- Writing past the end of the heap is a no-op. -/
theorem set_ge : ∀ (l : List CliArg) (id : Nat) (a : CliArg),
    l.length ≤ id → l.set id a = l := by
  intro l
  induction l with
  | nil => intro id a h; rfl
  | cons x xs ih =>
    intro id a h
    cases id with
    | zero => simp at h
    | succ n =>
      show x :: xs.set n a = x :: xs
      rw [ih n a (Nat.le_of_succ_le_succ h)]

/-- Reading back an in-range write. -/
theorem heapGet_set_self : ∀ (l : List CliArg) (id : Nat) (a : CliArg),
    id < l.length → heapGet (l.set id a) id = a := by
  intro l
  induction l with
  | nil => intro id a h; simp at h
  | cons x xs ih =>
    intro id a h
    cases id with
    | zero => rfl
    | succ n =>
      show heapGet (x :: xs.set n a) (n + 1) = a
      rw [heapGet_cons_succ]
      exact ih n a (Nat.lt_of_succ_lt_succ h)

/-- A write does not affect other cells. -/
theorem heapGet_set_ne : ∀ (l : List CliArg) (id id2 : Nat) (a : CliArg),
    id2 ≠ id → heapGet (l.set id a) id2 = heapGet l id2 := by
  intro l
  induction l with
  | nil => intro id id2 a h; rfl
  | cons x xs ih =>
    intro id id2 a h
    cases id with
    | zero =>
      cases id2 with
      | zero => exact absurd rfl h
      | succ m => rfl
    | succ n =>
      cases id2 with
      | zero => rfl
      | succ m =>
        show heapGet (x :: xs.set n a) (m + 1) = heapGet (x :: xs) (m + 1)
        rw [heapGet_cons_succ, heapGet_cons_succ]
        exact ih n m a (fun hmn => h (by rw [hmn]))

theorem specEq_refl (a : CliArg) : specEq a a := ⟨rfl, rfl, rfl, rfl⟩

theorem specEq_trans (a b c : CliArg) (h1 : specEq a b) (h2 : specEq b c) : specEq a c :=
  ⟨h1.1.trans h2.1, h1.2.1.trans h2.2.1, h1.2.2.1.trans h2.2.2.1, h1.2.2.2.trans h2.2.2.2⟩

/-- Spec-equivalent records become equal when given the same param value. -/
theorem specEq_update (a b : CliArg) (v : String) (h : specEq a b) :
    ({a with param := v} : CliArg) = {b with param := v} := by
  obtain ⟨h1, h2, h3, h4⟩ := h
  cases a
  cases b
  simp_all

theorem heapEquiv_refl (l : List CliArg) : heapEquiv l l :=
  ⟨rfl, fun _ => specEq_refl _⟩

theorem heapEquiv_trans (hA hB hC : List CliArg) (h1 : heapEquiv hA hB)
    (h2 : heapEquiv hB hC) : heapEquiv hA hC :=
  ⟨h1.1.trans h2.1, fun id => specEq_trans _ _ _ (h1.2 id) (h2.2 id)⟩

/-- A param write leaves the heap spec-equivalent to the original. -/
theorem heapEquiv_set_self (l : List CliArg) (id : Nat) (v : String) :
    heapEquiv l (l.set id {heapGet l id with param := v}) := by
  refine ⟨by simp, ?_⟩
  intro id2
  by_cases h2 : id2 = id
  · subst h2
    by_cases hlt : id2 < l.length
    · rw [heapGet_set_self l id2 _ hlt]
      exact ⟨rfl, rfl, rfl, rfl⟩
    · rw [set_ge l id2 _ (Nat.le_of_not_lt hlt)]
      exact specEq_refl _
  · rw [heapGet_set_ne l id id2 _ h2]
    exact specEq_refl _

/-- The same param write on two spec-equivalent heaps keeps them
spec-equivalent. -/
theorem heapEquiv_set (hA hB : List CliArg) (id : Nat) (v : String)
    (hEq : heapEquiv hA hB) :
    heapEquiv (hA.set id {heapGet hA id with param := v})
      (hB.set id {heapGet hB id with param := v}) := by
  refine ⟨by simp [hEq.1], ?_⟩
  intro id2
  by_cases h2 : id2 = id
  · subst h2
    by_cases hlt : id2 < hA.length
    · rw [heapGet_set_self hA id2 _ hlt, heapGet_set_self hB id2 _ (hEq.1 ▸ hlt),
        specEq_update _ _ v (hEq.2 id2)]
      exact specEq_refl _
    · rw [set_ge hA id2 _ (Nat.le_of_not_lt hlt),
        set_ge hB id2 _ (hEq.1 ▸ Nat.le_of_not_lt hlt)]
      exact hEq.2 id2
  · rw [heapGet_set_ne hA id id2 _ h2, heapGet_set_ne hB id id2 _ h2]
    exact hEq.2 id2

/-- The same param write on two spec-equivalent heaps produces replay-related
heaps: the written cell ends equal, all others are untouched. -/
theorem replayRel_write (hA hB : List CliArg) (id : Nat) (v : String)
    (hEq : heapEquiv hA hB) :
    replayRel hA hB (hA.set id {heapGet hA id with param := v})
      (hB.set id {heapGet hB id with param := v}) := by
  intro id2
  by_cases h2 : id2 = id
  · subst h2
    by_cases hlt : id2 < hA.length
    · left
      rw [heapGet_set_self hA id2 _ hlt, heapGet_set_self hB id2 _ (hEq.1 ▸ hlt)]
      exact specEq_update _ _ v (hEq.2 id2)
    · right
      rw [set_ge hA id2 _ (Nat.le_of_not_lt hlt),
        set_ge hB id2 _ (hEq.1 ▸ Nat.le_of_not_lt hlt)]
      exact ⟨rfl, rfl⟩
  · right
    rw [heapGet_set_ne hA id id2 _ h2, heapGet_set_ne hB id id2 _ h2]
    exact ⟨rfl, rfl⟩

/-- Chaining replay relations across consecutive scan steps. -/
theorem replayRel_step (hA hB h1 h2 g1 g2 : List CliArg)
    (s1 : replayRel hA hB h1 h2) (s2 : replayRel h1 h2 g1 g2) :
    replayRel hA hB g1 g2 := by
  intro id
  cases s2 id with
  | inl h => exact Or.inl h
  | inr h =>
    cases s1 id with
    | inl h3 => exact Or.inl (h.1.trans (h3.trans h.2.symm))
    | inr h3 => exact Or.inr ⟨h.1.trans h3.1, h.2.trans h3.2⟩

/-- Heaps of equal length that agree at every index are equal. -/
theorem heap_ext : ∀ (l1 l2 : List CliArg), l1.length = l2.length →
    (∀ id, heapGet l1 id = heapGet l2 id) → l1 = l2 := by
  intro l1
  induction l1 with
  | nil =>
    intro l2 hl hp
    cases l2 with
    | nil => rfl
    | cons y ys => simp at hl
  | cons x xs ih =>
    intro l2 hl hp
    cases l2 with
    | nil => simp at hl
    | cons y ys =>
      have h0 : x = y := hp 0
      have ht : xs = ys := ih ys (by simpa using hl) (fun id => hp (id + 1))
      rw [h0, ht]

/-- Argument lookup only reads names, so it cannot distinguish
spec-equivalent heaps. -/
theorem getArgument_congr (hA hB : List CliArg) (scope : List Nat) (name : String)
    (hEq : heapEquiv hA hB) :
    getArgument hA scope name = getArgument hB scope name := by
  induction scope with
  | nil => rfl
  | cons id rest ih =>
    unfold getArgument
    rw [(hEq.2 id).1, ih]

/-- processFlag cannot distinguish spec-equivalent heaps. -/
theorem processFlag_congr (hA hB : List CliArg) (scope : List Nat) (name : String)
    (r : CliParserResult) (hEq : heapEquiv hA hB) :
    processFlag hA scope name r = processFlag hB scope name r := by
  unfold processFlag
  rw [getArgument_congr hA hB scope name hEq]
  cases e : getArgument hB scope name with
  | none => rfl
  | some id => simp only [(hEq.2 id).2.2.1]

/-- Running processArgument from two spec-equivalent heaps: same result and
success flag, spec-equivalent output heaps, and replay-related writes. -/
theorem processArgument_replay (hA hB : List CliArg) (scope : List Nat)
    (name value : String) (r : CliParserResult) (hEq : heapEquiv hA hB) :
    (processArgument hA scope name value r).2 = (processArgument hB scope name value r).2 ∧
    heapEquiv (processArgument hA scope name value r).1
      (processArgument hB scope name value r).1 ∧
    replayRel hA hB (processArgument hA scope name value r).1
      (processArgument hB scope name value r).1 := by
  unfold processArgument
  rw [getArgument_congr hA hB scope name hEq]
  cases e : getArgument hB scope name with
  | none => exact ⟨rfl, hEq, fun id => Or.inr ⟨rfl, rfl⟩⟩
  | some id =>
    have hp : (heapGet hA id).hasParam = (heapGet hB id).hasParam := (hEq.2 id).2.2.1
    simp only [e]
    cases Bool.eq_false_or_eq_true ((heapGet hB id).hasParam) with
    | inr hb =>
      rw [if_pos (show (!(heapGet hA id).hasParam) = true from by rw [hp, hb]; rfl),
        if_pos (show (!(heapGet hB id).hasParam) = true from by rw [hb]; rfl)]
      exact ⟨rfl, hEq, fun id2 => Or.inr ⟨rfl, rfl⟩⟩
    | inl hb =>
      rw [if_neg (show ¬((!(heapGet hA id).hasParam) = true) from by rw [hp, hb]; simp),
        if_neg (show ¬((!(heapGet hB id).hasParam) = true) from by rw [hb]; simp)]
      exact ⟨rfl, heapEquiv_set hA hB id value hEq, replayRel_write hA hB id value hEq⟩

/-- processArgument leaves the heap spec-equivalent to the input heap. -/
theorem processArgument_specs (heap : List CliArg) (scope : List Nat)
    (name value : String) (r : CliParserResult) :
    heapEquiv heap (processArgument heap scope name value r).1 := by
  unfold processArgument
  cases e : getArgument heap scope name with
  | none => simp only [e]; exact heapEquiv_refl heap
  | some id =>
    simp only [e]
    cases Bool.eq_false_or_eq_true ((heapGet heap id).hasParam) with
    | inr hb =>
      rw [if_pos (show (!(heapGet heap id).hasParam) = true from by rw [hb]; rfl)]
      exact heapEquiv_refl heap
    | inl hb =>
      rw [if_neg (show ¬((!(heapGet heap id).hasParam) = true) from by rw [hb]; simp)]
      exact heapEquiv_set_self heap id value

/-- The scan never changes a heap entry's name, description, hasParam or
required field: only param values are written. -/
theorem scanTokens_specs (heap : List CliArg) (scope : List Nat) (r : CliParserResult)
    (ts : List String) : heapEquiv heap (scanTokens heap scope r ts).1 := by
  induction heap, scope, r, ts using scanTokens.induct with
  | case1 heap scope r => exact heapEquiv_refl heap
  | case2 heap scope r t ht r2 hpf => simp [scanTokens, ht, hpf, heapEquiv_refl]
  | case3 heap scope r t ht r2 hpf => simp [scanTokens, ht, hpf, heapEquiv_refl]
  | case4 heap scope r t ht => simp [scanTokens, ht, heapEquiv_refl]
  | case5 heap scope r t v rest hc heap2 r2 hpa ih =>
    have hstep := processArgument_specs heap scope (strTail t) v r
    rw [hpa] at hstep
    exact heapEquiv_trans _ _ _ hstep (by simpa [scanTokens, hc, hpa] using ih)
  | case6 heap scope r t v rest hc heap2 r2 hpa =>
    have hstep := processArgument_specs heap scope (strTail t) v r
    rw [hpa] at hstep
    simpa [scanTokens, hc, hpa] using hstep
  | case7 heap scope r t v rest hc ht r2 hpf ih =>
    have hv : dashToken v = true := by
      cases hdv : dashToken v
      · exact absurd (by simp [ht, hdv]) hc
      · rfl
    simpa [scanTokens, ht, hv, hpf] using ih
  | case8 heap scope r t v rest hc ht r2 hpf =>
    have hv : dashToken v = true := by
      cases hdv : dashToken v
      · exact absurd (by simp [ht, hdv]) hc
      · rfl
    simp [scanTokens, ht, hv, hpf, heapEquiv_refl]
  | case9 heap scope r t v rest hc ht => simp [scanTokens, hc, ht, heapEquiv_refl]

/-- Replaying the same token scan from a spec-equivalent heap yields the same
result and success flag, and final heaps in replayRel: every cell is either
written identically by both runs or left untouched by both. -/
theorem scanTokens_replay (heap : List CliArg) (scope : List Nat) (r : CliParserResult)
    (ts : List String) :
    ∀ hB, heapEquiv heap hB →
      (scanTokens heap scope r ts).2 = (scanTokens hB scope r ts).2 ∧
      replayRel heap hB (scanTokens heap scope r ts).1 (scanTokens hB scope r ts).1 := by
  induction heap, scope, r, ts using scanTokens.induct with
  | case1 heap scope r =>
    intro hB hEq
    exact ⟨rfl, fun id => Or.inr ⟨rfl, rfl⟩⟩
  | case2 heap scope r t ht r2 hpf =>
    intro hB hEq
    have hpfB : processFlag hB scope (strTail t) r = (r2, true) := by
      rw [← processFlag_congr heap hB scope (strTail t) r hEq, hpf]
    have eA : scanTokens heap scope r [t] = (heap, r2, true) := by
      simp [scanTokens, ht, hpf]
    have eB : scanTokens hB scope r [t] = (hB, r2, true) := by
      simp [scanTokens, ht, hpfB]
    rw [eA, eB]
    exact ⟨rfl, fun id => Or.inr ⟨rfl, rfl⟩⟩
  | case3 heap scope r t ht r2 hpf =>
    intro hB hEq
    have hpfB : processFlag hB scope (strTail t) r = (r2, false) := by
      rw [← processFlag_congr heap hB scope (strTail t) r hEq, hpf]
    have eA : scanTokens heap scope r [t] = (heap, r2, false) := by
      simp [scanTokens, ht, hpf]
    have eB : scanTokens hB scope r [t] = (hB, r2, false) := by
      simp [scanTokens, ht, hpfB]
    rw [eA, eB]
    exact ⟨rfl, fun id => Or.inr ⟨rfl, rfl⟩⟩
  | case4 heap scope r t ht =>
    intro hB hEq
    have eA : scanTokens heap scope r [t] =
        (heap, {r with errorMessage := "Weird input"}, false) := by
      simp [scanTokens, ht]
    have eB : scanTokens hB scope r [t] =
        (hB, {r with errorMessage := "Weird input"}, false) := by
      simp [scanTokens, ht]
    rw [eA, eB]
    exact ⟨rfl, fun id => Or.inr ⟨rfl, rfl⟩⟩
  | case5 heap scope r t v rest hc heap2 r2 hpa ih =>
    intro hB hEq
    rcases eB : processArgument hB scope (strTail t) v r with ⟨hB2, rB2, okB⟩
    have hrep := processArgument_replay heap hB scope (strTail t) v r hEq
    rw [hpa, eB] at hrep
    obtain ⟨h1, h2, h3⟩ := hrep
    simp only [Prod.mk.injEq] at h1
    obtain ⟨hr, hok⟩ := h1
    subst hr
    subst hok
    have eA : scanTokens heap scope r (t :: v :: rest) = scanTokens heap2 scope r2 rest := by
      simp [scanTokens, hc, hpa]
    have eB2 : scanTokens hB scope r (t :: v :: rest) = scanTokens hB2 scope r2 rest := by
      simp [scanTokens, hc, eB]
    rw [eA, eB2]
    have ihB := ih hB2 h2
    exact ⟨ihB.1, replayRel_step heap hB heap2 hB2 _ _ h3 ihB.2⟩
  | case6 heap scope r t v rest hc heap2 r2 hpa =>
    intro hB hEq
    rcases eB : processArgument hB scope (strTail t) v r with ⟨hB2, rB2, okB⟩
    have hrep := processArgument_replay heap hB scope (strTail t) v r hEq
    rw [hpa, eB] at hrep
    obtain ⟨h1, h2, h3⟩ := hrep
    simp only [Prod.mk.injEq] at h1
    obtain ⟨hr, hok⟩ := h1
    subst hr
    subst hok
    have eA : scanTokens heap scope r (t :: v :: rest) = (heap2, r2, false) := by
      simp [scanTokens, hc, hpa]
    have eB2 : scanTokens hB scope r (t :: v :: rest) = (hB2, r2, false) := by
      simp [scanTokens, hc, eB]
    rw [eA, eB2]
    exact ⟨rfl, h3⟩
  | case7 heap scope r t v rest hc ht r2 hpf ih =>
    intro hB hEq
    have hv : dashToken v = true := by
      cases hdv : dashToken v
      · exact absurd (by simp [ht, hdv]) hc
      · rfl
    have hpfB : processFlag hB scope (strTail t) r = (r2, true) := by
      rw [← processFlag_congr heap hB scope (strTail t) r hEq, hpf]
    have eA : scanTokens heap scope r (t :: v :: rest) =
        scanTokens heap scope r2 (v :: rest) := by
      simp [scanTokens, ht, hv, hpf]
    have eB : scanTokens hB scope r (t :: v :: rest) =
        scanTokens hB scope r2 (v :: rest) := by
      simp [scanTokens, ht, hv, hpfB]
    rw [eA, eB]
    exact ih hB hEq
  | case8 heap scope r t v rest hc ht r2 hpf =>
    intro hB hEq
    have hv : dashToken v = true := by
      cases hdv : dashToken v
      · exact absurd (by simp [ht, hdv]) hc
      · rfl
    have hpfB : processFlag hB scope (strTail t) r = (r2, false) := by
      rw [← processFlag_congr heap hB scope (strTail t) r hEq, hpf]
    have eA : scanTokens heap scope r (t :: v :: rest) = (heap, r2, false) := by
      simp [scanTokens, ht, hv, hpf]
    have eB : scanTokens hB scope r (t :: v :: rest) = (hB, r2, false) := by
      simp [scanTokens, ht, hv, hpfB]
    rw [eA, eB]
    exact ⟨rfl, fun id => Or.inr ⟨rfl, rfl⟩⟩
  | case9 heap scope r t v rest hc ht =>
    intro hB hEq
    have eA : scanTokens heap scope r (t :: v :: rest) =
        (heap, {r with errorMessage := "Weird input"}, false) := by
      simp [scanTokens, hc, ht]
    have eB : scanTokens hB scope r (t :: v :: rest) =
        (hB, {r with errorMessage := "Weird input"}, false) := by
      simp [scanTokens, hc, ht]
    rw [eA, eB]
    exact ⟨rfl, fun id => Or.inr ⟨rfl, rfl⟩⟩

/-- Rescanning the same tokens from the final heap of a scan reproduces that
heap exactly and yields the same result and success flag. -/
theorem scanTokens_fixpoint (heap : List CliArg) (scope : List Nat) (r : CliParserResult)
    (ts : List String) :
    scanTokens (scanTokens heap scope r ts).1 scope r ts = scanTokens heap scope r ts := by
  have hspec := scanTokens_specs heap scope r ts
  have rep := scanTokens_replay heap scope r ts (scanTokens heap scope r ts).1 hspec
  have hspec2 := scanTokens_specs (scanTokens heap scope r ts).1 scope r ts
  have hpt : ∀ id, heapGet (scanTokens (scanTokens heap scope r ts).1 scope r ts).1 id =
      heapGet (scanTokens heap scope r ts).1 id := by
    intro id
    cases rep.2 id with
    | inl h => exact h.symm
    | inr h => exact h.2
  have hheap := heap_ext _ _ hspec2.1.symm hpt
  have h2 := rep.1.symm
  calc scanTokens (scanTokens heap scope r ts).1 scope r ts
      = ((scanTokens (scanTokens heap scope r ts).1 scope r ts).1,
         (scanTokens (scanTokens heap scope r ts).1 scope r ts).2) := rfl
    _ = ((scanTokens heap scope r ts).1, (scanTokens heap scope r ts).2) := by
        rw [hheap, h2]
    _ = scanTokens heap scope r ts := rfl

/-- The heap component of processArguments is the scan's heap (the required
check never writes the heap). -/
theorem processArguments_heap (heap : List CliArg) (scope : List Nat)
    (r : CliParserResult) (ts : List String) :
    (processArguments heap scope r ts).1 = (scanTokens heap scope r ts).1 := by
  unfold processArguments
  rcases e : scanTokens heap scope r ts with ⟨heap2, r2, ok⟩
  cases ok <;> simp [e]

/-- Rerunning processArguments from its own final heap reproduces the same
output: the scan is a fixpoint and the required check is deterministic. -/
theorem processArguments_fixpoint (heap : List CliArg) (scope : List Nat)
    (r : CliParserResult) (ts : List String) :
    processArguments (processArguments heap scope r ts).1 scope r ts =
      processArguments heap scope r ts := by
  rw [processArguments_heap heap scope r ts]
  unfold processArguments
  rw [scanTokens_fixpoint heap scope r ts]

/-- When the first token is a registered subcommand name, parse swaps the
scope and scans the rest. -/
theorem parse_sub (p : CliParser) (heap : List CliArg) (r : CliParserResult)
    (t0 : String) (rest : List String) (ci : Nat)
    (h : getSubcommand p.subcommands t0 = some ci) :
    parse p heap (t0 :: rest) r =
      ({p with args := (p.subcommands.getD ci defaultSub).args},
       processArguments heap (p.subcommands.getD ci defaultSub).args
         {r with subcommand := some ci} rest) := by
  simp only [parse, h]

/-- Claim C5: calling parse a second time with the identical token sequence,
on the parser state and heap returned by the first call and a fresh result
object equal to the first call's, reproduces the first call's entire output:
same parser state, same heap (hence equal recorded values on every spec),
and an equal result object (same subcommand reference, same matched-argument
identities in the same order, same error message). -/
theorem claim5_parse_idempotent (p : CliParser) (heap : List CliArg)
    (tokens : List String) (r : CliParserResult) :
    parse (parse p heap tokens r).1 (parse p heap tokens r).2.1 tokens r =
      parse p heap tokens r := by
  cases tokens with
  | nil => rfl
  | cons t0 rest =>
    cases hg : getSubcommand p.subcommands t0 with
    | none =>
      rw [parse_flat p heap r t0 rest hg]
      show parse p (processArguments heap p.args r (t0 :: rest)).1 (t0 :: rest) r =
        (p, processArguments heap p.args r (t0 :: rest))
      rw [parse_flat p _ r t0 rest hg, processArguments_fixpoint heap p.args r (t0 :: rest)]
    | some ci =>
      rw [parse_sub p heap r t0 rest ci hg]
      show parse {p with args := (p.subcommands.getD ci defaultSub).args}
          (processArguments heap (p.subcommands.getD ci defaultSub).args
            {r with subcommand := some ci} rest).1 (t0 :: rest) r =
        ({p with args := (p.subcommands.getD ci defaultSub).args},
         processArguments heap (p.subcommands.getD ci defaultSub).args
           {r with subcommand := some ci} rest)
      have hg2 : getSubcommand
          ({p with args := (p.subcommands.getD ci defaultSub).args} : CliParser).subcommands
          t0 = some ci := hg
      rw [parse_sub _ _ r t0 rest ci hg2]
      show ({p with args := (p.subcommands.getD ci defaultSub).args},
          processArguments
            (processArguments heap (p.subcommands.getD ci defaultSub).args
              {r with subcommand := some ci} rest).1
            (p.subcommands.getD ci defaultSub).args
            {r with subcommand := some ci} rest) =
        ({p with args := (p.subcommands.getD ci defaultSub).args},
         processArguments heap (p.subcommands.getD ci defaultSub).args
           {r with subcommand := some ci} rest)
      rw [processArguments_fixpoint heap (p.subcommands.getD ci defaultSub).args
          {r with subcommand := some ci} rest]

end PixlCli
